import Mathlib

/-
Shallow embedding of the Xueevan101/Blockchains repository.

The main subject is src/bridge.py: the event scanner (_scan_from_last), the
event normalizer (_extract_bridge_args), the transaction submitter
(_build_and_send_tx) and the relay orchestrator (scan_blocks).  The RPC node,
the contract objects and the filesystem are external collaborators; they are
modelled as explicit oracle parameters (a deterministic record of what each
call would have returned during one invocation).  A raised Python exception is
modelled as `none` or `Except.error`.

The second subject is src/findBlockNonce.py: the proof-of-work miner
mine_block, with the SHA-256 digest of hashlib abstracted as a function
parameter and the unbounded search loop run on explicit fuel.
-/

namespace Bridge

/-- The argument record of a decoded log event, as accessed by
_extract_bridge_args via getattr: each known field is either present with a
value or absent (`none`, the getattr default).  The Python field named `to`
is called `toAddr` here because `to` is a reserved word in Lean.  Addresses
are opaque strings; Web3.to_checksum_address is modelled as the identity on
them. -/
structure EvArgs where
  token : Option String
  underlying : Option String
  underlying_token : Option String
  recipient : Option String
  toAddr : Option String
  amount : Option Nat
  value : Option Nat
deriving DecidableEq, Repr

/-- One decoded log entry as returned by get_all_entries: the fields of the
event object that bridge.py reads (ev.transactionHash.hex(), ev.logIndex,
the block it sits in, and ev.args). -/
structure BridgeEv where
  transactionHash : String
  logIndex : Nat
  blockNumber : Nat
  args : EvArgs
deriving DecidableEq, Repr

/-- The RPC log query `event_obj.create_filter(from_block, to_block,
...).get_all_entries()`: `some es` is a successful reply, `none` a raised
exception (throttling, timeout, range too wide, ...). -/
abbrev Rpc : Type := Nat → Nat → Option (List BridgeEv)

/-- The JSON dictionary persisted in bridge_state.json payloads: string keys
to integer block heights. -/
abbrev StateMap : Type := List (String × Nat)

/-- Python dict.get: the value of the first matching key, if any. -/
def lookupKey : StateMap → String → Option Nat
  | [], _ => none
  | (k, v) :: rest, key => if k = key then some v else lookupKey rest key

/-- Python dict assignment state[key] = v. -/
def setKey : StateMap → String → Nat → StateMap
  | [], key, v => [(key, v)]
  | (k, w) :: rest, key, v =>
    if k = key then (key, v) :: rest else (k, w) :: setKey rest key v

/-- _load_state (bridge.py lines 154-160): the parsed contents of
bridge_state.json when the file exists and parses (`some m`), and otherwise
the default dictionary with both cursors at 0. -/
def loadState : Option StateMap → StateMap
  | some m => m
  | none => [("source_last", 0), ("destination_last", 0)]

/-- Python truthiness of `x or alt` for an optional integer x, as used in
`state.get(state_key) or max(0, head - safety_back)`: both a missing key and
a stored 0 fall through to the alternative. -/
def pyOrNat : Option Nat → Nat → Nat
  | none, alt => alt
  | some n, alt => if n = 0 then alt else n

/-- The last-resort inner loop of _scan_from_last (lines 252-258): one
single-block filter per block of the failed half range, exceptions swallowed
with `pass`. -/
def perBlock (rpc : Rpc) (fb tb : Nat) : List BridgeEv :=
  (List.range' fb (tb + 1 - fb)).flatMap fun b =>
    match rpc b b with
    | some es => es
    | none => []

/-- One half-range attempt of the fallback (lines 248-258): try the filter
over [fb, tb]; on an exception fall through to the per-block loop. -/
def tryRange (rpc : Rpc) (fb tb : Nat) : List BridgeEv :=
  match rpc fb tb with
  | some es => es
  | none => perBlock rpc fb tb

/-- The except-branch of the chunk loop (lines 244-258): split the failed
chunk [cur, to_blk] at mid = (cur + to_blk) // 2 and process the two halves
in order. -/
def chunkFallback (rpc : Rpc) (cur to_blk : Nat) : List BridgeEv :=
  let mid := (cur + to_blk) / 2
  tryRange rpc cur mid ++ tryRange rpc (mid + 1) to_blk

/-- The body of the while loop of _scan_from_last (lines 236-259) with
CHUNK = 500, recursing on an explicit iteration bound: request the chunk
[cur, to_blk] where to_blk = min(cur + 500 - 1, head), on an exception run
the fallback, then advance cur to to_blk + 1.  Each iteration advances cur
by at least one block, so any fuel of at least head + 1 - cur reproduces
the Python loop exactly (scanLoopF_congr below). -/
def scanLoopF (rpc : Rpc) (head : Nat) : Nat → Nat → List BridgeEv
  | 0, _ => []
  | fuel + 1, cur =>
    if cur ≤ head then
      (match rpc cur (min (cur + 500 - 1) head) with
        | some es => es
        | none => chunkFallback rpc cur (min (cur + 500 - 1) head)) ++
        scanLoopF rpc head fuel (min (cur + 500 - 1) head + 1)
    else []

/-- The while loop of _scan_from_last, entered at cur with chain head head:
the loop runs at most head + 1 - cur iterations. -/
def scanLoop (rpc : Rpc) (cur head : Nat) : List BridgeEv :=
  scanLoopF rpc head (head + 1 - cur) cur

/-- The tuple returned by _scan_from_last, plus `saved`: the dictionary
passed to _save_state during the call, or `none` when _save_state was not
called (the early return for an empty range). -/
structure ScanResult where
  found : List BridgeEv
  state : StateMap
  head : Nat
  start : Nat
  saved : Option StateMap
deriving DecidableEq, Repr

/-- _scan_from_last (bridge.py lines 218-264).  `fileState` is what the
bridge_state.json file held (none when absent or unparsable), `head` is
w3.eth.block_number.  Nat subtraction models Python max(0, head -
safety_back).  After the loop the function sets state[state_key] = head
unconditionally and persists it. -/
def scanFromLast (rpc : Rpc) (fileState : Option StateMap) (head : Nat)
    (state_key : String) (safety_back : Nat) : ScanResult :=
  let state := loadState fileState
  let start := pyOrNat (lookupKey state state_key) (head - safety_back) + 1
  if start > head then
    ⟨[], state, head, start, none⟩
  else
    let found := scanLoop rpc start head
    let state2 := setKey state state_key head
    ⟨found, state2, head, start, some state2⟩

/-- The getattr chain for the token field (lines 124-128): token, then
underlying, then underlying_token. -/
def tokenAlt (a : EvArgs) : Option String :=
  (a.token.orElse fun _ => a.underlying).orElse fun _ => a.underlying_token

/-- The getattr chain for the recipient field (lines 131-133): recipient,
then to. -/
def recipientAlt (a : EvArgs) : Option String :=
  a.recipient.orElse fun _ => a.toAddr

/-- The getattr chain for the amount field (lines 136-138): amount, then
value. -/
def amountAlt (a : EvArgs) : Option Nat :=
  a.amount.orElse fun _ => a.value

/-- list(args.keys()) in the error path of _extract_bridge_args: the names
of the fields present on the event. -/
def keysOf (a : EvArgs) : List String :=
  (if a.token.isSome then ["token"] else []) ++
    (if a.underlying.isSome then ["underlying"] else []) ++
    (if a.underlying_token.isSome then ["underlying_token"] else []) ++
    (if a.recipient.isSome then ["recipient"] else []) ++
    (if a.toAddr.isSome then ["to"] else []) ++
    (if a.amount.isSome then ["amount"] else []) ++
    (if a.value.isSome then ["value"] else [])

/-- The message of the ValueError raised by _extract_bridge_args, naming the
available field set. -/
def decodeErrMsg (a : EvArgs) : String :=
  "Unrecognized event arg names; available: " ++ toString (keysOf a)

/-- _extract_bridge_args (bridge.py lines 116-151): resolve each field along
its alias chain; if any of the three resolved to None raise a ValueError
naming the available keys, otherwise return the (token, recipient, amount)
triple (checksum normalization modelled as identity, int conversion as
identity on Nat). -/
def extractBridgeArgs (a : EvArgs) : Except String (String × String × Nat) :=
  match tokenAlt a, recipientAlt a, amountAlt a with
  | some t, some r, some m => Except.ok (t, r, m)
  | _, _, _ => Except.error (decodeErrMsg a)

/-- A transaction receipt as bridge.py reads it: getattr(receipt, "status",
0), so a missing status field is just status 0. -/
structure Receipt where
  status : Nat
deriving DecidableEq, Repr

/-- What one iteration of the retry loop of _build_and_send_tx observes from
the chain: either some exception in the nonce fetch / build / sign / send /
wait steps (exn), or a mined receipt from wait_for_transaction_receipt. -/
inductive AttemptOutcome where
  | exn (msg : String)
  | receipt (r : Receipt)
deriving DecidableEq, Repr

/-- The retry loop of _build_and_send_tx (lines 90-113):
`for attempt in range(max_retries + 1)`.  A receipt with status other than 1
raises RuntimeError("Transaction reverted"), which the generic except
catches like every other exception, recording it as last_err.  Arguments:
the attempt oracle, the next attempt index, the attempts left, and last_err.
Returns the outcome (ok receipt, or error carrying last_err from the final
raise) and the number of attempts executed. -/
def runAttempts (attempts : Nat → AttemptOutcome) :
    Nat → Nat → Option String → Except (Option String) Receipt × Nat
  | _, 0, lastErr => (Except.error lastErr, 0)
  | i, n + 1, lastErr =>
    match attempts i with
    | AttemptOutcome.receipt r =>
      if r.status = 1 then (Except.ok r, 1)
      else
        let rest := runAttempts attempts (i + 1) n (some "Transaction reverted")
        (rest.1, rest.2 + 1)
    | AttemptOutcome.exn msg =>
      let rest := runAttempts attempts (i + 1) n (some msg)
      (rest.1, rest.2 + 1)

/-- The observable behavior of one _build_and_send_tx call: the gas limit it
uses for every attempt, the final outcome, and how many attempts ran. -/
structure SendResult where
  gasUsed : Nat
  outcome : Except (Option String) Receipt
  attemptsMade : Nat

/-- _build_and_send_tx (bridge.py lines 76-113).  `estimate` is what
contract_fn.estimate_gas returned (`none` when it raised); on failure the
fixed fallback 300000 is used; gas_buffer is added either way.  The loop
runs max_retries + 1 attempts. -/
def buildAndSendTx (estimate : Option Nat) (attempts : Nat → AttemptOutcome)
    (gas_buffer max_retries : Nat) : SendResult :=
  let gas_estimate :=
    match estimate with
    | some g => g
    | none => 300000
  let gas := gas_estimate + gas_buffer
  let run := runAttempts attempts 0 (max_retries + 1) none
  ⟨gas, run.1, run.2⟩

/-- evt_id = the transaction hash and log index joined by a colon
(lines 325 and 374). -/
def evtId (ev : BridgeEv) : String :=
  ev.transactionHash ++ ":" ++ toString ev.logIndex

/-- The per-event chain environment of the submit call: the gas estimation
result and the attempt oracle handed to _build_and_send_tx for this event. -/
structure SubmitEnv where
  estimate : Option Nat
  attempts : Nat → AttemptOutcome

/-- The mutable state of the per-event loop of scan_blocks: the processed
set (as a duplicate-free list) and, as the observable side effect, the ids
for which _build_and_send_tx was invoked, in order. -/
structure OrchStep where
  processed : List String
  submitted : List String
deriving DecidableEq, Repr

/-- One iteration of the per-event loop of scan_blocks (lines 324-355, and
the structurally identical 373-404 for the other direction): skip when the
id is already processed; parse via _extract_bridge_args, printing and
continuing on failure; build the counterpart contract function (`fnOk ev =
false` models the except branch for a missing wrap/withdraw); call
_build_and_send_tx and add the id to the processed set only when it
returned a receipt. -/
def processOne (fnOk : BridgeEv → Bool) (env : BridgeEv → SubmitEnv)
    (gas_buffer max_retries : Nat) (s : OrchStep) (ev : BridgeEv) : OrchStep :=
  if evtId ev ∈ s.processed then s
  else
    match extractBridgeArgs ev.args with
    | Except.error _ => s
    | Except.ok _ =>
      if fnOk ev then
        match (buildAndSendTx (env ev).estimate (env ev).attempts
            gas_buffer max_retries).outcome with
        | Except.ok _ => ⟨s.processed ++ [evtId ev], s.submitted ++ [evtId ev]⟩
        | Except.error _ => ⟨s.processed, s.submitted ++ [evtId ev]⟩
      else s

/-- The whole per-event loop of scan_blocks over the scanned events, starting
from the processed set loaded by _load_processed. -/
def processEvents (fnOk : BridgeEv → Bool) (env : BridgeEv → SubmitEnv)
    (gas_buffer max_retries : Nat) (events : List BridgeEv)
    (processed0 : List String) : OrchStep :=
  events.foldl (processOne fnOk env gas_buffer max_retries) ⟨processed0, []⟩

/-- The observable result of one scan_blocks invocation: its return value,
the ids submitted, and the contents written to processed_events.json and
bridge_state.json (`none` when the file was not rewritten). -/
structure ScanBlocksRes where
  ret : Nat
  submitted : List String
  processedSaved : Option (List String)
  stateSaved : Option StateMap
deriving DecidableEq, Repr

/-- scan_blocks (bridge.py lines 271-406) for one invocation.  `configOk`
models whether the contract_info file was readable, `hasEvent` whether the
relevant event exists on the contract ABI; both failure paths return 0
before any scan.  Otherwise _scan_from_last runs with the per-direction
state key and safety_back 200; an empty result returns 0 without touching
processed_events.json; otherwise the per-event loop runs, the processed set
is saved, and the function returns 1. -/
def scan_blocks (chain : String) (configOk hasEvent : Bool) (rpc : Rpc)
    (fileState : Option StateMap) (head : Nat) (processed0 : List String)
    (fnOk : BridgeEv → Bool) (env : BridgeEv → SubmitEnv)
    (gas_buffer max_retries : Nat) : ScanBlocksRes :=
  if chain ≠ "source" ∧ chain ≠ "destination" then ⟨0, [], none, none⟩
  else if configOk = false then ⟨0, [], none, none⟩
  else if hasEvent = false then ⟨0, [], none, none⟩
  else
    let state_key := if chain = "source" then "source_last" else "destination_last"
    let sr := scanFromLast rpc fileState head state_key 200
    if sr.found.isEmpty then ⟨0, [], none, sr.saved⟩
    else
      let o := processEvents fnOk env gas_buffer max_retries sr.found processed0
      ⟨1, o.submitted, some o.processed, sr.saved⟩

end Bridge

namespace PoW

/-- int.from_bytes(bytes, "big"). -/
def bytesToNat (bs : List Nat) : Nat :=
  bs.foldl (fun acc b => acc * 256 + b) 0

/-- n.to_bytes(width, "big"); the caller guards n < 256 ^ width since Python
raises OverflowError beyond that. -/
def natToBytesBE : Nat → Nat → List Nat
  | 0, _ => []
  | w + 1, n => natToBytesBE w (n / 256) ++ [n % 256]

/-- The binary digits of n as characters, least significant first (empty
for 0). -/
def lsbDigits (n : Nat) : List Char :=
  if h : n = 0 then []
  else (if n % 2 = 0 then '0' else '1') :: lsbDigits (n / 2)
termination_by n
decreasing_by exact Nat.div_lt_self (Nat.pos_of_ne_zero h) (by norm_num)

/-- The characters of Python bin(n): the prefix 0b, then the digits most
significant first; bin(0) is the string 0b0. -/
def binChars (n : Nat) : List Char :=
  '0' :: 'b' :: (if n = 0 then ['0'] else (lsbDigits n).reverse)

/-- bin(hash_int).endswith("0" * k): the last k characters of the bin()
string are all the character zero (false when the string is shorter
than k). -/
def pyBinEndsWithZeros (n k : Nat) : Bool :=
  (binChars n).reverse.take k == List.replicate k '0'

/-- Python str.encode("utf-8") as a byte list. -/
def utf8Bytes (s : String) : List Nat :=
  (s.data.flatMap String.utf8EncodeChar).map UInt8.toNat

/-- The while loop of mine_block (findBlockNonce.py lines 22-35), run on
explicit fuel: hash prev_hash + tx_data + nonce, return the nonce when
bin() of the digest ends in k zero characters, otherwise try the next
nonce_int.  `none` models not returning within the fuel bound, including
the OverflowError to_bytes raises once nonce_int no longer fits 8 bytes. -/
def mineLoop (H : List Nat → List Nat) (prev_hash tx_data : List Nat)
    (k : Nat) : Nat → Nat → Option (List Nat)
  | 0, _ => none
  | fuel + 1, nonce_int =>
    if 2 ^ 64 ≤ nonce_int then none
    else
      if pyBinEndsWithZeros
          (bytesToNat (H (prev_hash ++ tx_data ++ natToBytesBE 8 nonce_int))) k then
        some (natToBytesBE 8 nonce_int)
      else mineLoop H prev_hash tx_data k fuel (nonce_int + 1)

/-- mine_block (findBlockNonce.py lines 7-38).  The SHA-256 digest of
hashlib is abstracted as the parameter H (external library); transactions
are joined and UTF-8 encoded; k is an integer, the not-isinstance-int half
of the guard being outside what an integer-typed embedding can state; a
negative k returns the single byte 0. -/
def mine_block (H : List Nat → List Nat) (k : Int) (prev_hash : List Nat)
    (transactions : List String) (fuel : Nat) : Option (List Nat) :=
  if k < 0 then some [0]
  else mineLoop H prev_hash (utf8Bytes (String.join transactions)) k.toNat fuel 0

end PoW

open Bridge PoW

/-- The contiguous block heights lo, lo + 1, ..., hi (empty when hi < lo),
used to state which part of the chain a scan covered. -/
def blockRange (lo hi : Nat) : List Nat :=
  List.range' lo (hi + 1 - lo)

/-- Classifier for one attempt of the retry loop: anything other than a
receipt with success status, matching what the generic except of
_build_and_send_tx treats as a failed attempt. -/
def attemptFails : AttemptOutcome → Bool
  | AttemptOutcome.exn _ => true
  | AttemptOutcome.receipt r => if r.status = 1 then false else true

/-- An RPC endpoint whose every log query raises (permanent throttling). -/
def rpcAlwaysFails : Rpc := fun _ _ => none

/-- An RPC endpoint whose every log query succeeds with no entries. -/
def rpcEmptyOk : Rpc := fun _ _ => some []

/-- A chain oracle whose first attempt mines a reverted transaction and
whose later attempts mine a successful one. -/
def attemptsRevertThenOk : Nat → AttemptOutcome := fun i =>
  if i = 0 then AttemptOutcome.receipt ⟨0⟩ else AttemptOutcome.receipt ⟨1⟩

/-- A chain oracle under which every attempt mines a reverted transaction. -/
def attemptsAllRevert : Nat → AttemptOutcome := fun _ =>
  AttemptOutcome.receipt ⟨0⟩

/-- Canonically named event arguments. -/
def argsOkT : EvArgs := ⟨some "T", none, none, some "R", none, some 100, none⟩

/-- Event arguments using only the alternate field names underlying, to and
value. -/
def argsAltT : EvArgs := ⟨none, some "U", none, none, some "R2", none, some 5⟩

/-- Event arguments with no recognized field present. -/
def argsAllNone : EvArgs := ⟨none, none, none, none, none, none, none⟩

/-- A synthetic Deposit event at block 5, log index 0. -/
def evA : BridgeEv := ⟨"0xaaa", 0, 5, argsOkT⟩

/-- A second synthetic Deposit event at block 5, log index 0 of another
transaction. -/
def evB : BridgeEv := ⟨"0xbbb", 0, 5, argsOkT⟩

/-- A synthetic event whose arguments cannot be decoded. -/
def evBad : BridgeEv := ⟨"0xbad", 0, 5, argsAllNone⟩

/-- A synthetic event at block 3 for the per-block fallback scenario. -/
def evC7 : BridgeEv := ⟨"0xccc", 1, 3, argsOkT⟩

/-- The event population of the per-block fallback scenario. -/
def eventsC7 : List BridgeEv := [evC7]

/-- An RPC endpoint that answers single-block queries with the events of
that block and raises on any wider range. -/
def rpcC7 : Rpc := fun fb tb =>
  if fb = tb then some (eventsC7.filter fun e => e.blockNumber == fb) else none

/-- An RPC endpoint that reports evA and evB for any range containing block
5 and no entries otherwise. -/
def rpcTwoEvents : Rpc := fun fb tb =>
  if fb ≤ 5 ∧ 5 ≤ tb then some [evA, evB] else some []

/-- A submit environment whose gas estimation succeeds and whose first
attempt confirms with success status. -/
def envAlwaysOk : BridgeEv → SubmitEnv := fun _ =>
  ⟨some 21000, fun _ => AttemptOutcome.receipt ⟨1⟩⟩

/-- A digest oracle that always hashes to the single zero byte. -/
def H0 : List Nat → List Nat := fun _ => [0]

lemma scanLoopF_congr (rpc : Rpc) (head : Nat) :
    ∀ f1 f2 cur, head + 1 - cur ≤ f1 → head + 1 - cur ≤ f2 →
      scanLoopF rpc head f1 cur = scanLoopF rpc head f2 cur := by
  intro f1
  induction f1 with
  | zero =>
    intro f2 cur h1 h2
    cases f2 with
    | zero => rfl
    | succ f2 =>
      rw [scanLoopF, scanLoopF, if_neg (by omega)]
  | succ f1 ih =>
    intro f2 cur h1 h2
    cases f2 with
    | zero =>
      rw [scanLoopF, scanLoopF, if_neg (by omega)]
    | succ f2 =>
      rw [scanLoopF, scanLoopF]
      by_cases hch : cur ≤ head
      · rw [if_pos hch, if_pos hch]
        congr 1
        exact ih f2 _ (by omega) (by omega)
      · rw [if_neg hch, if_neg hch]

/-- The fuel-based scanLoop satisfies the recurrence of the Python while
loop: this is the sense in which the embedding is exact. -/
lemma scanLoop_unfold (rpc : Rpc) (cur head : Nat) :
    scanLoop rpc cur head =
      if cur ≤ head then
        (match rpc cur (min (cur + 500 - 1) head) with
          | some es => es
          | none => chunkFallback rpc cur (min (cur + 500 - 1) head)) ++
          scanLoop rpc (min (cur + 500 - 1) head + 1) head
      else [] := by
  unfold scanLoop
  by_cases hch : cur ≤ head
  · rw [if_pos hch]
    have h1 : head + 1 - cur = (head - cur) + 1 := by omega
    rw [h1, scanLoopF, if_pos hch]
    congr 1
    rcases Nat.le_total (cur + 500 - 1) head with hm | hm
    · rw [min_eq_left hm]
      exact scanLoopF_congr rpc head (head - cur) _ _ (by omega) (by omega)
    · rw [min_eq_right hm]
      exact scanLoopF_congr rpc head (head - cur) _ _ (by omega) (by omega)
  · rw [if_neg hch]
    cases hf : head + 1 - cur with
    | zero => rfl
    | succ n => rw [scanLoopF, if_neg hch]

lemma runAttempts_ok_status (attempts : Nat → AttemptOutcome) :
    ∀ n i lastErr r, (runAttempts attempts i n lastErr).1 = Except.ok r → r.status = 1 := by
  intro n
  induction n with
  | zero =>
    intro i lastErr r h
    simp [runAttempts] at h
  | succ n ih =>
    intro i lastErr r h
    rw [runAttempts] at h
    cases hA : attempts i with
    | receipt rc =>
      rw [hA] at h
      by_cases hs : rc.status = 1
      · simp [hs] at h
        rw [← h]
        exact hs
      · simp [hs] at h
        exact ih _ _ _ h
    | exn m =>
      rw [hA] at h
      simp at h
      exact ih _ _ _ h

lemma runAttempts_all_fail (attempts : Nat → AttemptOutcome)
    (h : ∀ i, attemptFails (attempts i) = true) :
    ∀ n i lastErr, (runAttempts attempts i n lastErr).1.isOk = false ∧
      (runAttempts attempts i n lastErr).2 = n := by
  intro n
  induction n with
  | zero =>
    intro i lastErr
    simp [runAttempts, Except.isOk, Except.toBool]
  | succ n ih =>
    intro i lastErr
    cases hA : attempts i with
    | receipt rc =>
      by_cases hs : rc.status = 1
      · exfalso
        have hf := h i
        rw [hA] at hf
        simp [attemptFails, hs] at hf
      · rw [runAttempts, hA]
        simp only [hs, if_false]
        refine ⟨(ih (i + 1) (some "Transaction reverted")).1, ?_⟩
        simp [(ih (i + 1) (some "Transaction reverted")).2]
    | exn m =>
      rw [runAttempts, hA]
      refine ⟨(ih (i + 1) (some m)).1, ?_⟩
      simp [(ih (i + 1) (some m)).2]

lemma runAttempts_pos (attempts : Nat → AttemptOutcome) (n i : Nat) (lastErr : Option String) :
    1 ≤ (runAttempts attempts i (n + 1) lastErr).2 := by
  rw [runAttempts]
  cases attempts i with
  | receipt rc =>
    by_cases hs : rc.status = 1
    · simp [hs]
    · simp [hs]
  | exn m => simp

lemma buildAndSendTx_ok_status (estimate : Option Nat) (attempts : Nat → AttemptOutcome)
    (gas_buffer max_retries : Nat) (r : Receipt)
    (h : (buildAndSendTx estimate attempts gas_buffer max_retries).outcome = Except.ok r) :
    r.status = 1 :=
  runAttempts_ok_status attempts (max_retries + 1) 0 none r h

/-- Claim C9: in _build_and_send_tx, if gas estimation raises any exception,
submission still proceeds using the fixed fallback constant 300000 plus the
buffer; for every input, gas estimation failure never blocks the submission
attempt (at least one attempt always runs). -/
theorem claim_C9_gas_fallback (attempts : Nat → AttemptOutcome) (gas_buffer max_retries : Nat) :
    (buildAndSendTx none attempts gas_buffer max_retries).gasUsed = 300000 + gas_buffer ∧
    1 ≤ (buildAndSendTx none attempts gas_buffer max_retries).attemptsMade := by
  exact ⟨rfl, runAttempts_pos attempts max_retries 0 none⟩

/-- Claim C4, counterexample: with a chain oracle whose first attempt mines
a reverted receipt (status 0), _build_and_send_tx makes a second attempt
with the same arguments inside the same call, and even returns the receipt
that the retry mined, so a non-success receipt is retried rather than
treated as a terminal failure of the call. -/
theorem claim_C4_counterexample :
    attemptsRevertThenOk 0 = AttemptOutcome.receipt ⟨0⟩ ∧
    (buildAndSendTx none attemptsRevertThenOk 0 2).attemptsMade = 2 ∧
    (buildAndSendTx none attemptsRevertThenOk 0 2).outcome = Except.ok ⟨1⟩ := by
  refine ⟨rfl, by decide, rfl⟩

/-- Claim C4, amended: a receipt with non-success status raises a
RuntimeError that the generic except of the retry loop catches like any
transient error, so the call is retried with the same arguments; when every
attempt fails (reverted receipt or exception) all max_retries + 1 attempts
are consumed and the call ends in the terminal error rather than in a
revert-specific early abort. -/
theorem claim_C4_revert_retried (estimate : Option Nat) (attempts : Nat → AttemptOutcome)
    (gas_buffer max_retries : Nat) (h : ∀ i, attemptFails (attempts i) = true) :
    (buildAndSendTx estimate attempts gas_buffer max_retries).outcome.isOk = false ∧
    (buildAndSendTx estimate attempts gas_buffer max_retries).attemptsMade = max_retries + 1 :=
  runAttempts_all_fail attempts h (max_retries + 1) 0 none

/-- Claim C4, witness for the amended theorem at a concrete oracle. -/
theorem claim_C4_witness :
    (buildAndSendTx none attemptsAllRevert 0 1).outcome.isOk = false ∧
    (buildAndSendTx none attemptsAllRevert 0 1).attemptsMade = 1 + 1 :=
  claim_C4_revert_retried none attemptsAllRevert 0 1 (fun _ => rfl)

/-- Claim C3: in the per-event loop of scan_blocks, the event id is added to
the processed set exactly when the counterpart transaction submission
returned a receipt, and every receipt _build_and_send_tx returns has success
status 1; on any other outcome (decode failure, missing contract function,
submit failure after retries) the id is left out so a future invocation
retries it. -/
theorem claim_C3_mark_processed_iff (fnOk : BridgeEv → Bool) (env : BridgeEv → SubmitEnv)
    (gas_buffer max_retries : Nat) (s : OrchStep) (ev : BridgeEv)
    (hnew : evtId ev ∉ s.processed) :
    (evtId ev ∈ (processOne fnOk env gas_buffer max_retries s ev).processed ↔
      ((extractBridgeArgs ev.args).isOk = true ∧ fnOk ev = true ∧
        ∃ r, (buildAndSendTx (env ev).estimate (env ev).attempts
          gas_buffer max_retries).outcome = Except.ok r)) ∧
    (∀ r, (buildAndSendTx (env ev).estimate (env ev).attempts
        gas_buffer max_retries).outcome = Except.ok r → r.status = 1) := by
  constructor
  · unfold processOne
    rw [if_neg hnew]
    cases hE : extractBridgeArgs ev.args with
    | error m =>
      simp [hnew, Except.isOk, Except.toBool]
    | ok v =>
      by_cases hF : fnOk ev
      · rw [if_pos hF]
        cases hO : (buildAndSendTx (env ev).estimate (env ev).attempts
            gas_buffer max_retries).outcome with
        | ok r =>
          simp [Except.isOk, Except.toBool, hF]
        | error e =>
          simp [hnew, Except.isOk, Except.toBool, hF]
      · rw [if_neg hF]
        simp [hnew, hF]
  · intro r h
    exact buildAndSendTx_ok_status _ _ _ _ r h

/-- Claim C3, witness at a concrete fresh event and an environment whose
first attempt confirms with success. -/
theorem claim_C3_witness :
    (evtId evA ∈ (processOne (fun _ => true) envAlwaysOk 0 0 ⟨[], []⟩ evA).processed ↔
      ((extractBridgeArgs evA.args).isOk = true ∧ (fun _ => true) evA = true ∧
        ∃ r, (buildAndSendTx (envAlwaysOk evA).estimate (envAlwaysOk evA).attempts
          0 0).outcome = Except.ok r)) ∧
    (∀ r, (buildAndSendTx (envAlwaysOk evA).estimate (envAlwaysOk evA).attempts
        0 0).outcome = Except.ok r → r.status = 1) :=
  claim_C3_mark_processed_iff (fun _ => true) envAlwaysOk 0 0 ⟨[], []⟩ evA (by simp)

/-- Claim C1, counterexample: under an RPC that raises on every log query,
_scan_from_last with stored cursor 5 and head 10 retrieves no logs at all,
yet persists the cursor advanced to the chain head 10 — not left unchanged
at 5 as the claim requires. -/
theorem claim_C1_counterexample :
    (scanFromLast rpcAlwaysFails (some [("source_last", 5)]) 10 "source_last" 200).saved =
      some [("source_last", 10)] ∧
    (scanFromLast rpcAlwaysFails (some [("source_last", 5)]) 10 "source_last" 200).found = [] ∧
    (10 : Nat) ≠ 5 := by
  refine ⟨by decide, by decide, by decide⟩

/-- Claim C1, amended: _scan_from_last always terminates, and whenever the
scan range is nonempty (start ≤ head) it persists the cursor equal to the
chain head regardless of which log requests failed; only when start > head
does it skip saving, leaving the stored cursor unchanged. -/
theorem claim_C1_cursor_always_head (rpc : Rpc) (fileState : Option StateMap)
    (head : Nat) (state_key : String) (safety_back : Nat) :
    (pyOrNat (lookupKey (loadState fileState) state_key) (head - safety_back) + 1 ≤ head →
      (scanFromLast rpc fileState head state_key safety_back).saved =
        some (setKey (loadState fileState) state_key head)) ∧
    (head < pyOrNat (lookupKey (loadState fileState) state_key) (head - safety_back) + 1 →
      (scanFromLast rpc fileState head state_key safety_back).saved = none) := by
  unfold scanFromLast
  constructor
  · intro h
    rw [if_neg (by omega)]
  · intro h
    rw [if_pos (by omega)]

/-- Claim C1, witness for the amended theorem: with a nonempty range the
saved state carries the head as cursor, and with an empty range nothing is
saved. -/
theorem claim_C1_witness :
    (scanFromLast rpcEmptyOk (some [("source_last", 2)]) 5 "source_last" 200).saved =
      some (setKey (loadState (some [("source_last", 2)])) "source_last" 5) ∧
    (scanFromLast rpcEmptyOk (some [("source_last", 50)]) 10 "source_last" 200).saved = none :=
  ⟨(claim_C1_cursor_always_head rpcEmptyOk (some [("source_last", 2)]) 5 "source_last" 200).1
      (by decide),
   (claim_C1_cursor_always_head rpcEmptyOk (some [("source_last", 50)]) 10 "source_last" 200).2
      (by decide)⟩

/-- Claim C8, counterexample: with a stored cursor value 0 (the persisted
default for a direction that has not yet been scanned) and head 1000, the
scan starts at max(0, head - 200) + 1 = 801, not at 0 + 1 = 1, because
Python `or` treats a stored 0 like an absent cursor. -/
theorem claim_C8_counterexample :
    (scanFromLast rpcEmptyOk (some [("source_last", 0)]) 1000 "source_last" 200).start = 801 ∧
    (801 : Nat) ≠ 0 + 1 := by
  refine ⟨by decide, by decide⟩

/-- Claim C8, amended: the starting height is c + 1 for every stored cursor
value c other than 0; when the cursor entry is absent or 0 (including the
fresh default) the scan instead starts at max(0, head - safety_back) + 1,
one past head minus the safety margin. -/
theorem claim_C8_start_height (rpc : Rpc) (fileState : Option StateMap)
    (head : Nat) (state_key : String) (safety_back : Nat) :
    (∀ c, lookupKey (loadState fileState) state_key = some c → c ≠ 0 →
      (scanFromLast rpc fileState head state_key safety_back).start = c + 1) ∧
    ((lookupKey (loadState fileState) state_key = none ∨
        lookupKey (loadState fileState) state_key = some 0) →
      (scanFromLast rpc fileState head state_key safety_back).start =
        head - safety_back + 1) := by
  constructor
  · intro c hc hcz
    simp only [scanFromLast, hc, pyOrNat]
    rw [if_neg hcz]
    split <;> rfl
  · intro hc
    rcases hc with hc | hc
    · simp only [scanFromLast, hc, pyOrNat]
      split <;> rfl
    · simp only [scanFromLast, hc, pyOrNat, if_true]
      split <;> rfl

/-- Claim C8, witness for the amended theorem: a stored cursor 7 yields
start 8, and an absent state file (default cursor 0) with head 1000 yields
start 801. -/
theorem claim_C8_witness :
    (scanFromLast rpcEmptyOk (some [("source_last", 7)]) 20 "source_last" 200).start = 7 + 1 ∧
    (scanFromLast rpcEmptyOk none 1000 "source_last" 200).start = 1000 - 200 + 1 :=
  ⟨(claim_C8_start_height rpcEmptyOk (some [("source_last", 7)]) 20 "source_last" 200).1
      7 (by decide) (by decide),
   (claim_C8_start_height rpcEmptyOk none 1000 "source_last" 200).2 (Or.inr (by decide))⟩

lemma blockRange_self (b : Nat) : blockRange b b = [b] := by
  unfold blockRange
  rw [show b + 1 - b = 1 from by omega]
  exact List.range'_one

lemma blockRange_empty (lo hi : Nat) (h : hi < lo) : blockRange lo hi = [] := by
  unfold blockRange
  rw [show hi + 1 - lo = 0 from by omega]
  rfl

lemma blockRange_split (lo mid hi : Nat) (h1 : lo ≤ mid + 1) (h2 : mid ≤ hi) :
    blockRange lo mid ++ blockRange (mid + 1) hi = blockRange lo hi := by
  unfold blockRange
  have key := List.range'_append lo (mid + 1 - lo) (hi - mid) 1
  rw [one_mul] at key
  rw [show lo + (mid + 1 - lo) = mid + 1 from by omega] at key
  rw [show hi - mid + (mid + 1 - lo) = hi + 1 - lo from by omega] at key
  rw [show hi + 1 - (mid + 1) = hi - mid from by omega]
  exact key

lemma perBlock_eq (rpc : Rpc) (f : Nat → List BridgeEv)
    (h1 : ∀ b, rpc b b = some (f b)) (fb tb : Nat) :
    perBlock rpc fb tb = (blockRange fb tb).flatMap f := by
  unfold perBlock blockRange
  congr 1
  funext b
  rw [h1 b]

lemma tryRange_eq (rpc : Rpc) (f : Nat → List BridgeEv)
    (h1 : ∀ b, rpc b b = some (f b)) (h2 : ∀ fb tb, fb < tb → rpc fb tb = none)
    (fb tb : Nat) (hle : fb ≤ tb) :
    tryRange rpc fb tb = (blockRange fb tb).flatMap f := by
  unfold tryRange
  rcases eq_or_lt_of_le hle with heq | hlt
  · subst heq
    rw [h1 fb]
    show f fb = (blockRange fb fb).flatMap f
    rw [blockRange_self]
    simp
  · rw [h2 fb tb hlt]
    show perBlock rpc fb tb = (blockRange fb tb).flatMap f
    exact perBlock_eq rpc f h1 fb tb

lemma chunkFallback_eq (rpc : Rpc) (f : Nat → List BridgeEv)
    (h1 : ∀ b, rpc b b = some (f b)) (h2 : ∀ fb tb, fb < tb → rpc fb tb = none)
    (cur to_blk : Nat) (hlt : cur < to_blk) :
    chunkFallback rpc cur to_blk = (blockRange cur to_blk).flatMap f := by
  unfold chunkFallback
  show tryRange rpc cur ((cur + to_blk) / 2) ++
      tryRange rpc ((cur + to_blk) / 2 + 1) to_blk = (blockRange cur to_blk).flatMap f
  rw [tryRange_eq rpc f h1 h2 cur ((cur + to_blk) / 2) (by omega)]
  rw [tryRange_eq rpc f h1 h2 ((cur + to_blk) / 2 + 1) to_blk (by omega)]
  rw [← List.flatMap_append]
  rw [blockRange_split cur ((cur + to_blk) / 2) to_blk (by omega) (by omega)]

lemma scanLoopF_eq (rpc : Rpc) (f : Nat → List BridgeEv)
    (h1 : ∀ b, rpc b b = some (f b)) (h2 : ∀ fb tb, fb < tb → rpc fb tb = none) :
    ∀ fuel cur head, head + 1 - cur ≤ fuel →
      scanLoopF rpc head fuel cur = (blockRange cur head).flatMap f := by
  intro fuel
  induction fuel with
  | zero =>
    intro cur head hle
    rw [blockRange_empty cur head (by omega)]
    rfl
  | succ fuel ih =>
    intro cur head hle
    by_cases hch : cur ≤ head
    · rw [scanLoopF, if_pos hch]
      rcases Nat.le_total (cur + 500 - 1) head with hm | hm
      · rw [min_eq_left hm]
        rw [h2 cur (cur + 500 - 1) (by omega)]
        show chunkFallback rpc cur (cur + 500 - 1) ++
            scanLoopF rpc head fuel (cur + 500 - 1 + 1) = (blockRange cur head).flatMap f
        rw [chunkFallback_eq rpc f h1 h2 cur (cur + 500 - 1) (by omega)]
        rw [ih (cur + 500 - 1 + 1) head (by omega)]
        rw [← List.flatMap_append]
        rw [blockRange_split cur (cur + 500 - 1) head (by omega) hm]
      · rw [min_eq_right hm]
        rcases eq_or_lt_of_le hch with heq | hlt
        · subst heq
          rw [h1 cur]
          show f cur ++ scanLoopF rpc cur fuel (cur + 1) = (blockRange cur cur).flatMap f
          rw [ih (cur + 1) cur (by omega)]
          rw [blockRange_empty (cur + 1) cur (by omega)]
          rw [blockRange_self]
          simp
        · rw [h2 cur head hlt]
          show chunkFallback rpc cur head ++ scanLoopF rpc head fuel (head + 1) =
            (blockRange cur head).flatMap f
          rw [chunkFallback_eq rpc f h1 h2 cur head hlt]
          rw [ih (head + 1) head (by omega)]
          rw [blockRange_empty (head + 1) head (by omega)]
          simp
    · rw [scanLoopF, if_neg hch]
      rw [blockRange_empty cur head (by omega)]
      rfl

lemma flatMapNil (l : List Nat) : (l.flatMap fun _ => ([] : List BridgeEv)) = [] := by
  induction l with
  | nil => rfl
  | cons a l ih => simpa using ih

lemma perBlock_none (fb tb : Nat) : perBlock (fun _ _ => none) fb tb = [] := by
  unfold perBlock
  exact flatMapNil _

lemma chunkFallback_none (cur to_blk : Nat) :
    chunkFallback (fun _ _ => none) cur to_blk = [] := by
  unfold chunkFallback
  show perBlock (fun _ _ => none) cur ((cur + to_blk) / 2) ++
      perBlock (fun _ _ => none) ((cur + to_blk) / 2 + 1) to_blk = []
  rw [perBlock_none, perBlock_none]
  rfl

lemma scanLoopF_none : ∀ fuel cur head, scanLoopF (fun _ _ => none) head fuel cur = [] := by
  intro fuel
  induction fuel with
  | zero => intro cur head; rfl
  | succ fuel ih =>
    intro cur head
    rw [scanLoopF]
    by_cases hch : cur ≤ head
    · rw [if_pos hch]
      show chunkFallback (fun _ _ => none) cur (min (cur + 500 - 1) head) ++
          scanLoopF (fun _ _ => none) head fuel (min (cur + 500 - 1) head + 1) = []
      rw [chunkFallback_none, ih]
      rfl
    · rw [if_neg hch]

/-- Claim C7: under an RPC whose log query fails for every range wider than
one block but succeeds for single-block ranges, the scan loop of
_scan_from_last terminates (it is a total function of a fuel bounded by the
range size) and returns, per ascending block, exactly the events of every
block of the scanned range, reached through the per-block fallback; and
under a permanently failing RPC it terminates with no events. -/
theorem claim_C7_chunk_convergence (events : List BridgeEv) (rpc : Rpc)
    (h1 : ∀ b, rpc b b = some (events.filter fun e => e.blockNumber == b))
    (h2 : ∀ fb tb, fb < tb → rpc fb tb = none) (start head : Nat) :
    scanLoop rpc start head =
      (blockRange start head).flatMap (fun b => events.filter fun e => e.blockNumber == b) ∧
    ∀ cur hd : Nat, scanLoop (fun _ _ => none) cur hd = [] := by
  constructor
  · exact scanLoopF_eq rpc _ h1 h2 (head + 1 - start) start head le_rfl
  · intro cur hd
    exact scanLoopF_none (hd + 1 - cur) cur hd

/-- Claim C7, witness: the concrete single-block RPC over blocks 2 to 4
yields exactly the events of those blocks, and the always-failing RPC
yields none. -/
theorem claim_C7_witness :
    scanLoop rpcC7 2 4 =
      (blockRange 2 4).flatMap (fun b => eventsC7.filter fun e => e.blockNumber == b) ∧
    scanLoop (fun _ _ => none) 0 3 = [] := by
  have h1 : ∀ b, rpcC7 b b = some (eventsC7.filter fun e => e.blockNumber == b) := by
    intro b
    unfold rpcC7
    rw [if_pos rfl]
  have h2 : ∀ fb tb, fb < tb → rpcC7 fb tb = none := by
    intro fb tb hlt
    unfold rpcC7
    rw [if_neg (by omega)]
  exact ⟨(claim_C7_chunk_convergence eventsC7 rpcC7 h1 h2 2 4).1,
    (claim_C7_chunk_convergence eventsC7 rpcC7 h1 h2 2 4).2 0 3⟩

lemma processOne_mem_preserve (fnOk : BridgeEv → Bool) (env : BridgeEv → SubmitEnv)
    (gb mr : Nat) (s : OrchStep) (ev : BridgeEv) (id : String)
    (hp : id ∈ s.processed) (hs : id ∉ s.submitted) :
    id ∈ (processOne fnOk env gb mr s ev).processed ∧
      id ∉ (processOne fnOk env gb mr s ev).submitted := by
  unfold processOne
  by_cases hmem : evtId ev ∈ s.processed
  · rw [if_pos hmem]
    exact ⟨hp, hs⟩
  · rw [if_neg hmem]
    have hne : evtId ev ≠ id := fun h => hmem (h ▸ hp)
    cases hE : extractBridgeArgs ev.args with
    | error m => exact ⟨hp, hs⟩
    | ok v =>
      by_cases hF : fnOk ev
      · rw [if_pos hF]
        cases hO : (buildAndSendTx (env ev).estimate (env ev).attempts gb mr).outcome with
        | ok r =>
          refine ⟨List.mem_append_left _ hp, fun hmem2 => ?_⟩
          rcases List.mem_append.mp hmem2 with h | h
          · exact hs h
          · exact hne (List.mem_singleton.mp h).symm
        | error e =>
          refine ⟨hp, fun hmem2 => ?_⟩
          rcases List.mem_append.mp hmem2 with h | h
          · exact hs h
          · exact hne (List.mem_singleton.mp h).symm
      · rw [if_neg hF]
        exact ⟨hp, hs⟩

lemma processEvents_preserve (fnOk : BridgeEv → Bool) (env : BridgeEv → SubmitEnv)
    (gb mr : Nat) (events : List BridgeEv) (processed0 : List String) (id : String)
    (h : id ∈ processed0) :
    id ∈ (processEvents fnOk env gb mr events processed0).processed ∧
      id ∉ (processEvents fnOk env gb mr events processed0).submitted := by
  unfold processEvents
  have aux : ∀ (evs : List BridgeEv) (s : OrchStep), id ∈ s.processed → id ∉ s.submitted →
      id ∈ (evs.foldl (processOne fnOk env gb mr) s).processed ∧
        id ∉ (evs.foldl (processOne fnOk env gb mr) s).submitted := by
    intro evs
    induction evs with
    | nil => intro s hp hs; exact ⟨hp, hs⟩
    | cons ev evs ih =>
      intro s hp hs
      rw [List.foldl_cons]
      have hstep := processOne_mem_preserve fnOk env gb mr s ev id hp hs
      exact ih _ hstep.1 hstep.2
  exact aux events ⟨processed0, []⟩ h (List.not_mem_nil id)

lemma scan_blocks_shape (chain : String) (configOk hasEvent : Bool) (rpc : Rpc)
    (fileState : Option StateMap) (head : Nat) (processed0 : List String)
    (fnOk : BridgeEv → Bool) (env : BridgeEv → SubmitEnv) (gb mr : Nat) :
    ((scan_blocks chain configOk hasEvent rpc fileState head processed0
        fnOk env gb mr).submitted = [] ∧
      (scan_blocks chain configOk hasEvent rpc fileState head processed0
        fnOk env gb mr).processedSaved = none) ∨
    ((scan_blocks chain configOk hasEvent rpc fileState head processed0
        fnOk env gb mr).submitted =
        (processEvents fnOk env gb mr
          (scanFromLast rpc fileState head
            (if chain = "source" then "source_last" else "destination_last") 200).found
          processed0).submitted ∧
      (scan_blocks chain configOk hasEvent rpc fileState head processed0
        fnOk env gb mr).processedSaved =
        some (processEvents fnOk env gb mr
          (scanFromLast rpc fileState head
            (if chain = "source" then "source_last" else "destination_last") 200).found
          processed0).processed) := by
  simp only [scan_blocks]
  split
  · exact Or.inl ⟨rfl, rfl⟩
  · split
    · exact Or.inl ⟨rfl, rfl⟩
    · split
      · exact Or.inl ⟨rfl, rfl⟩
      · split
        · split
          · exact Or.inl ⟨rfl, rfl⟩
          · exact Or.inr ⟨rfl, rfl⟩
        · split
          · exact Or.inl ⟨rfl, rfl⟩
          · exact Or.inr ⟨rfl, rfl⟩

/-- Claim C2: once an event id is in the persisted processed set loaded at
the start of a scan_blocks invocation, that invocation performs no
submission for it, and if the invocation rewrites processed_events.json the
id is still in the saved set — so every later invocation again observes it
as processed and never submits its counterpart transaction a second
time. -/
theorem claim_C2_processed_skip (chain : String) (configOk hasEvent : Bool) (rpc : Rpc)
    (fileState : Option StateMap) (head : Nat) (processed0 : List String)
    (fnOk : BridgeEv → Bool) (env : BridgeEv → SubmitEnv) (gb mr : Nat) (id : String)
    (h : id ∈ processed0) :
    id ∉ (scan_blocks chain configOk hasEvent rpc fileState head processed0
      fnOk env gb mr).submitted ∧
    ∀ ps, (scan_blocks chain configOk hasEvent rpc fileState head processed0
      fnOk env gb mr).processedSaved = some ps → id ∈ ps := by
  rcases scan_blocks_shape chain configOk hasEvent rpc fileState head processed0
      fnOk env gb mr with ⟨hs, hp⟩ | ⟨hs, hp⟩
  · rw [hs, hp]
    exact ⟨List.not_mem_nil id, fun ps hps => by cases hps⟩
  · rw [hs, hp]
    have hh := processEvents_preserve fnOk env gb mr
      (scanFromLast rpc fileState head
        (if chain = "source" then "source_last" else "destination_last") 200).found
      processed0 id h
    exact ⟨hh.2, fun ps hps => by cases hps; exact hh.1⟩

/-- Claim C2, witness: an invocation whose persisted processed set already
holds the id of evA does not submit for evA and keeps the id in the saved
set. -/
theorem claim_C2_witness :
    "0xaaa:0" ∉ (scan_blocks "source" true true rpcTwoEvents (some [("source_last", 4)]) 5
      ["0xaaa:0"] (fun _ => true) envAlwaysOk 20000 2).submitted ∧
    ∀ ps, (scan_blocks "source" true true rpcTwoEvents (some [("source_last", 4)]) 5
      ["0xaaa:0"] (fun _ => true) envAlwaysOk 20000 2).processedSaved = some ps →
        "0xaaa:0" ∈ ps :=
  claim_C2_processed_skip "source" true true rpcTwoEvents (some [("source_last", 4)]) 5
    ["0xaaa:0"] (fun _ => true) envAlwaysOk 20000 2 "0xaaa:0" (by simp)

/-- Claim C5, counterexample: an invocation that finds two fresh events at
block 5 and relays both of them successfully (the saved processed set
gains both ids) still returns 1, not the count 2 of events relayed. -/
theorem claim_C5_counterexample :
    (scan_blocks "source" true true rpcTwoEvents (some [("source_last", 4)]) 5 []
      (fun _ => true) envAlwaysOk 20000 2).ret = 1 ∧
    (scan_blocks "source" true true rpcTwoEvents (some [("source_last", 4)]) 5 []
      (fun _ => true) envAlwaysOk 20000 2).processedSaved = some ["0xaaa:0", "0xbbb:0"] ∧
    (1 : Nat) ≠ 2 := by
  refine ⟨by decide, by decide, by decide⟩

/-- Claim C5, amended: with a valid chain argument, readable contract
metadata and the event present on the ABI, scan_blocks returns 0 when the
scan finds no events (a valid, non-error result) and otherwise returns the
constant 1, regardless of how many events were found or relayed; the other
guard failures also return 0. -/
theorem claim_C5_ret_indicator (chain : String) (configOk hasEvent : Bool) (rpc : Rpc)
    (fileState : Option StateMap) (head : Nat) (processed0 : List String)
    (fnOk : BridgeEv → Bool) (env : BridgeEv → SubmitEnv) (gb mr : Nat)
    (hchain : chain = "source" ∨ chain = "destination")
    (hc : configOk = true) (he : hasEvent = true) :
    (scan_blocks chain configOk hasEvent rpc fileState head processed0
      fnOk env gb mr).ret =
      if (scanFromLast rpc fileState head
            (if chain = "source" then "source_last" else "destination_last")
            200).found.isEmpty
      then 0 else 1 := by
  have hval : ¬ (chain ≠ "source" ∧ chain ≠ "destination") := by
    rcases hchain with h | h <;> simp [h]
  subst hc
  subst he
  simp only [scan_blocks]
  rw [if_neg hval]
  rw [if_neg (by decide : ¬ (true = false))]
  rw [if_neg (by decide : ¬ (true = false))]
  split <;> split <;> rfl

/-- Claim C5, witness for the amended theorem at the two-event scenario. -/
theorem claim_C5_witness :
    (scan_blocks "source" true true rpcTwoEvents (some [("source_last", 4)]) 5 []
      (fun _ => true) envAlwaysOk 20000 2).ret =
      if (scanFromLast rpcTwoEvents (some [("source_last", 4)]) 5
            (if ("source" : String) = "source" then "source_last" else "destination_last")
            200).found.isEmpty
      then 0 else 1 :=
  claim_C5_ret_indicator "source" true true rpcTwoEvents (some [("source_last", 4)]) 5 []
    (fun _ => true) envAlwaysOk 20000 2 (Or.inl rfl) rfl rfl

lemma processOne_decode_skip (fnOk : BridgeEv → Bool) (env : BridgeEv → SubmitEnv)
    (gb mr : Nat) (s : OrchStep) (ev : BridgeEv) (msg : String)
    (hE : extractBridgeArgs ev.args = Except.error msg) :
    processOne fnOk env gb mr s ev = s := by
  unfold processOne
  by_cases hmem : evtId ev ∈ s.processed
  · rw [if_pos hmem]
  · rw [if_neg hmem, hE]

/-- Claim C6: the normalizer resolves the token field along the alias chain
token, underlying, underlying_token, the recipient along recipient, to, and
the amount along amount, value; when any field has no alternate present it
fails with the per-event decode error naming the available field set; and
in the per-event loop such an event is skipped while the rest of the batch
is processed unchanged. -/
theorem claim_C6_normalizer :
    (∀ a t r m, extractBridgeArgs a = Except.ok (t, r, m) →
      tokenAlt a = some t ∧ recipientAlt a = some r ∧ amountAlt a = some m) ∧
    (∀ a, (tokenAlt a = none ∨ recipientAlt a = none ∨ amountAlt a = none) →
      extractBridgeArgs a = Except.error (decodeErrMsg a)) ∧
    (∀ (fnOk : BridgeEv → Bool) (env : BridgeEv → SubmitEnv) (gb mr : Nat)
      (P : List String) (pre post : List BridgeEv) (ev : BridgeEv) (msg : String),
      extractBridgeArgs ev.args = Except.error msg →
      processEvents fnOk env gb mr (pre ++ ev :: post) P =
        processEvents fnOk env gb mr (pre ++ post) P) := by
  refine ⟨?_, ?_, ?_⟩
  · intro a t r m h
    unfold extractBridgeArgs at h
    cases hT : tokenAlt a with
    | none =>
      rw [hT] at h
      simp at h
    | some t0 =>
      cases hR : recipientAlt a with
      | none =>
        rw [hT, hR] at h
        simp at h
      | some r0 =>
        cases hM : amountAlt a with
        | none =>
          rw [hT, hR, hM] at h
          simp at h
        | some m0 =>
          rw [hT, hR, hM] at h
          simp only [Except.ok.injEq, Prod.mk.injEq] at h
          obtain ⟨e1, e2, e3⟩ := h
          subst e1
          subst e2
          subst e3
          exact ⟨rfl, rfl, rfl⟩
  · intro a h
    unfold extractBridgeArgs
    rcases h with h | h | h
    · rw [h]
    · cases hT : tokenAlt a
      · rfl
      · rw [h]
    · cases hT : tokenAlt a
      · rfl
      · cases hR : recipientAlt a
        · rfl
        · rw [h]
  · intro fnOk env gb mr P pre post ev msg hE
    unfold processEvents
    rw [List.foldl_append, List.foldl_cons,
      processOne_decode_skip fnOk env gb mr _ ev msg hE, ← List.foldl_append]

/-- Claim C6, witness: the alternate-named arguments resolve to the same
shape, the empty argument record produces the decode error naming its
(empty) field set, and a batch containing the undecodable event processes
exactly like the batch without it. -/
theorem claim_C6_witness :
    (tokenAlt argsAltT = some "U" ∧ recipientAlt argsAltT = some "R2" ∧
      amountAlt argsAltT = some 5) ∧
    extractBridgeArgs argsAllNone = Except.error (decodeErrMsg argsAllNone) ∧
    processEvents (fun _ => true) envAlwaysOk 0 0 ([evA] ++ evBad :: [evB]) [] =
      processEvents (fun _ => true) envAlwaysOk 0 0 ([evA] ++ [evB]) [] :=
  ⟨claim_C6_normalizer.1 argsAltT "U" "R2" 5 rfl,
   claim_C6_normalizer.2.1 argsAllNone (Or.inl rfl),
   claim_C6_normalizer.2.2 (fun _ => true) envAlwaysOk 0 0 [] [evA] [evB] evBad
     (decodeErrMsg argsAllNone) rfl⟩

lemma natToBytesBE_length : ∀ w n, (natToBytesBE w n).length = w := by
  intro w
  induction w with
  | zero => intro n; rfl
  | succ w ih =>
    intro n
    rw [natToBytesBE]
    simp [ih]

lemma take_zeros_dvd : ∀ k n, (lsbDigits n ++ ['b', '0']).take k = List.replicate k '0' →
    2 ^ k ∣ n := by
  intro k
  induction k with
  | zero =>
    intro n _
    simp
  | succ k ih =>
    intro n h
    by_cases hn : n = 0
    · subst hn
      exact dvd_zero _
    · rw [lsbDigits, dif_neg hn] at h
      rw [List.cons_append, List.take_succ_cons, List.replicate_succ] at h
      injection h with hc ht
      have hmod : n % 2 = 0 := by
        by_cases hm : n % 2 = 0
        · exact hm
        · rw [if_neg hm] at hc
          exact absurd hc (by decide)
      obtain ⟨c, hcc⟩ := ih (n / 2) ht
      refine ⟨c, ?_⟩
      have hsplit : n = 2 * (n / 2) := by omega
      rw [hsplit, hcc]
      ring

lemma endsWithZeros_dvd (n k : Nat) (h : pyBinEndsWithZeros n k = true) : 2 ^ k ∣ n := by
  unfold pyBinEndsWithZeros at h
  rw [beq_iff_eq] at h
  by_cases hn : n = 0
  · subst hn
    exact dvd_zero _
  · apply take_zeros_dvd k n
    unfold binChars at h
    rw [if_neg hn] at h
    simpa using h

lemma mineLoop_spec (H : List Nat → List Nat) (prev_hash tx_data : List Nat) (k : Nat) :
    ∀ fuel nonce_int nonce, mineLoop H prev_hash tx_data k fuel nonce_int = some nonce →
      nonce.length = 8 ∧ 2 ^ k ∣ bytesToNat (H (prev_hash ++ tx_data ++ nonce)) := by
  intro fuel
  induction fuel with
  | zero =>
    intro nonce_int nonce h
    cases h
  | succ fuel ih =>
    intro nonce_int nonce h
    rw [mineLoop] at h
    by_cases hov : 2 ^ 64 ≤ nonce_int
    · rw [if_pos hov] at h
      cases h
    · rw [if_neg hov] at h
      by_cases hend : pyBinEndsWithZeros
          (bytesToNat (H (prev_hash ++ tx_data ++ natToBytesBE 8 nonce_int))) k = true
      · rw [if_pos hend] at h
        injection h with h2
        subst h2
        exact ⟨natToBytesBE_length 8 nonce_int, endsWithZeros_dvd _ k hend⟩
      · rw [if_neg hend] at h
        exact ih _ _ h

/-- Claim C10: whenever mine_block returns on a non-negative difficulty k,
the result is an 8-byte nonce whose digest (prev_hash, then the UTF-8
encoding of the joined transactions, then the nonce, hashed by H) read as a
big-endian natural number is divisible by 2 ^ k; and on a negative k it
returns the single zero byte. -/
theorem claim_C10_mine_block (H : List Nat → List Nat) (k : Int) (prev_hash : List Nat)
    (transactions : List String) (fuel : Nat) :
    (∀ nonce, 0 ≤ k → mine_block H k prev_hash transactions fuel = some nonce →
      nonce.length = 8 ∧
        2 ^ k.toNat ∣
          bytesToNat (H (prev_hash ++ utf8Bytes (String.join transactions) ++ nonce))) ∧
    (k < 0 → mine_block H k prev_hash transactions fuel = some [0]) := by
  constructor
  · intro nonce hk h
    unfold mine_block at h
    rw [if_neg (by omega : ¬ k < 0)] at h
    exact mineLoop_spec H prev_hash (utf8Bytes (String.join transactions)) k.toNat
      fuel 0 nonce h
  · intro hk
    unfold mine_block
    rw [if_pos hk]

/-- Claim C10, witness: under the constant zero digest the very first nonce
is accepted at difficulty 1, as an 8-byte string satisfying the
divisibility, while a negative difficulty returns the single zero byte. -/
theorem claim_C10_witness :
    mine_block H0 1 [] [] 1 = some [0, 0, 0, 0, 0, 0, 0, 0] ∧
    ([0, 0, 0, 0, 0, 0, 0, 0] : List Nat).length = 8 ∧
    2 ^ ((1 : Int)).toNat ∣
      bytesToNat (H0 ([] ++ utf8Bytes (String.join []) ++ [0, 0, 0, 0, 0, 0, 0, 0])) ∧
    mine_block H0 (-3) [] [] 5 = some [0] := by
  have hrun : mine_block H0 1 [] [] 1 = some [0, 0, 0, 0, 0, 0, 0, 0] := by decide
  have hmain := (claim_C10_mine_block H0 1 [] [] 1).1 [0, 0, 0, 0, 0, 0, 0, 0]
    (by decide) hrun
  exact ⟨hrun, hmain.1, hmain.2, (claim_C10_mine_block H0 (-3) [] [] 5).2 (by decide)⟩
